import Mathlib

/-!
Verification of the AdWords client module (`client.py`).

The file embeds the module shallowly:

* Python values returned by remote calls are modelled by `PyVal`, with
  `hasattr` mirroring the duck-typing probes of `expectsList`.
* The parsed WSDL structure walked by `getPluralMethods` is modelled by
  `Wsdl` / `WsdlType` / `SchemaElement`; Python `dict[...]` lookups and
  `list[0]` indexing become `Except`-valued operations so that `KeyError`
  and `IndexError` are explicit.
* The filesystem touched by `getServiceLocation` is a record of directory
  and file paths; network fetches are counted.  The module never imports
  `sys`, so the reference to `sys.platform` on the `wsdl=True` path is a
  `NameError`; the resolution of the name `sys` is a parameter whose value
  in the shipped module is `none`.
* `buildServices` is modelled as a fold over the configured service names
  that threads the facade's attribute map (Python `setattr`) and reports a
  raised exception as an `Option String` next to the attribute map reached
  when the exception was raised; the composite `getServiceLocation` +
  `SOAPpy.WSDL.Proxy` description-loading step is abstracted as an oracle
  `String → Except String Wsdl` because `SOAPpy` is an external library.
* `client_from_config` is modelled up to the keyword mapping it passes to
  the `AdWordsClient` constructor.

Strings are compared and sliced character-wise, matching Python `str`
semantics (`startswith`, `endswith`, `s[:-8]`, `s[len(p):]`, `s[:3]`,
`replace`).
-/

/-- A Python runtime value as far as `expectsList` can observe it:
`None`, a list, or some object carrying a set of attribute names. -/
inductive PyVal where
  | pyNone
  | list (xs : List PyVal)
  | obj (attrs : List String)

/-- Membership of a string in a list of strings (used for Python `in` on
dict keys and for attribute lookups). -/
def keyMem : List String → String → Bool
  | [], _ => false
  | x :: xs, k => if x = k then true else keyMem xs k

/-- The attribute names of a Python 2 `list` object that matter here:
`reverse` is among them, `id` is not. -/
def listMethods : List String :=
  ["append", "count", "extend", "index", "insert", "pop", "remove", "reverse", "sort"]

/-- `hasattr(v, a)` for the values of `PyVal`. `None` has neither
`reverse` nor `id`; a list has its method names; an object has exactly the
attributes it carries. -/
def hasattr : PyVal → String → Bool
  | PyVal.pyNone, _ => false
  | PyVal.list _, a => keyMem listMethods a
  | PyVal.obj attrs, a => keyMem attrs a

/-- The inner function `returnList` produced by `expectsList` (client.py
lines 103-114): call `fn`, then normalise the result by duck typing. -/
def returnList {α : Type} (fn : α → PyVal) (args : α) : PyVal :=
  let out := fn args
  if !(hasattr out "reverse") then
    if !(hasattr out "id") then
      PyVal.list []
    else
      PyVal.list [out]
  else
    out

/-- `expectsList` (client.py lines 94-115): the decorator returns the
`returnList` closure over `fn`. -/
def expectsList {α : Type} (fn : α → PyVal) : α → PyVal :=
  returnList fn

/-- `returnList` with the underlying callable given explicit access to a
state (used to observe how often, and with which arguments, the wrapped
callable invokes the underlying one): the body performs the single call
`out = fn(*args, **kwargs)` and then branches on `out` alone. -/
def returnListTrace {α σ : Type} (fn : α → σ → PyVal × σ) (args : α) (s : σ) : PyVal × σ :=
  let r := fn args s
  let out := r.1
  (if !(hasattr out "reverse") then
    (if !(hasattr out "id") then PyVal.list [] else PyVal.list [out])
  else out, r.2)

/-- Character-wise Python `p.startswith(q)`. -/
def pyStartswith (s p : String) : Bool :=
  p.data.isPrefixOf s.data

/-- Character-wise Python `s.endswith(p)`. -/
def pyEndswith (s p : String) : Bool :=
  p.data.isSuffixOf s.data

/-- Python `len(s)` (character count). -/
def pyLen (s : String) : Nat :=
  s.data.length

/-- Python `s[n:]`. -/
def pyDropChars (s : String) (n : Nat) : String :=
  String.mk (s.data.drop n)

/-- Python `s[:n]`. -/
def pyTakeChars (s : String) (n : Nat) : String :=
  String.mk (s.data.take n)

/-- Python `s[:-n]` (for `0 < n`): drop the last `n` characters. -/
def pySliceDropRight (s : String) (n : Nat) : String :=
  String.mk (s.data.take (s.data.length - n))

/-- Python `s.replace(c, d)` for single-character pattern and
replacement. -/
def pyReplaceChar (s : String) (c d : Char) : String :=
  String.mk (s.data.map (fun x => if x = c then d else x))

/-- Attributes of a schema node, as the Python `dict` that SOAPpy exposes
through `.attributes`; looking up a missing key raises `KeyError`. -/
def lookupAttr : List (String × String) → String → Except String String
  | [], k => Except.error ("KeyError: " ++ k)
  | p :: ps, k => if p.1 = k then Except.ok p.2 else lookupAttr ps k

/-- An element appearing in the innermost content list
(`el.content.content.content[i]`); only its attribute dict is inspected. -/
structure InnerElem where
  attributes : List (String × String)

/-- The shape of `el.content` as far as the two `hasattr` guards of
`getPluralMethods` (client.py lines 199-200) can observe it: either
`el.content` has no `content` attribute, or `el.content.content` has no
`content` attribute, or the full chain `el.content.content.content` is
present as a list of elements. -/
inductive ElContent where
  | noContent
  | contentNoInner
  | contentInner (items : List InnerElem)

/-- A declared type element of the WSDL (`el` in the loop of
`getPluralMethods`): an attribute dict and its nested content. -/
structure SchemaElement where
  attributes : List (String × String)
  content : ElContent

/-- One entry of `wsdl.wsdl.types`: a list of declared elements. -/
structure WsdlType where
  elements : List SchemaElement

/-- The parsed interface description as used by `buildServices`: the
operation names (`wsdl.methods.keys()`, in iteration order) and the
declared types (`wsdl.wsdl.types`). -/
structure Wsdl where
  methods : List String
  types : List WsdlType

/-- Python `plurals[methName] = 1` on a dict used as a set: membership is
all that is ever read, so adding an already-present key is a no-op. -/
def dictInsert (ks : List String) (k : String) : List String :=
  if keyMem ks k then ks else ks ++ [k]

/-- The body of the element loop of `getPluralMethods` (client.py lines
198-207) for a single element: the two `hasattr` guards skip shallow
content, then `el.attributes['name']` is looked up (`KeyError` if
absent), then names not ending in `'Response'` are skipped, then
`el.content.content.content[0]` is indexed (`IndexError` on an empty
list) and its `maxOccurs` attribute is looked up (`KeyError` if absent)
and compared with `'unbounded'`. -/
def processElement (acc : List String) (el : SchemaElement) : Except String (List String) :=
  match el.content with
  | ElContent.noContent => Except.ok acc
  | ElContent.contentNoInner => Except.ok acc
  | ElContent.contentInner items =>
    match lookupAttr el.attributes "name" with
    | Except.error e => Except.error e
    | Except.ok nm =>
      if pyEndswith nm "Response" then
        match items with
        | [] => Except.error "IndexError: list index out of range"
        | first :: _ =>
          match lookupAttr first.attributes "maxOccurs" with
          | Except.error e => Except.error e
          | Except.ok mo =>
            if mo = "unbounded" then
              Except.ok (dictInsert acc (pySliceDropRight nm 8))
            else
              Except.ok acc
      else
        Except.ok acc

/-- The inner loop of `getPluralMethods` over the elements of one type. -/
def processElements : List SchemaElement → List String → Except String (List String)
  | [], acc => Except.ok acc
  | el :: els, acc =>
    match processElement acc el with
    | Except.error e => Except.error e
    | Except.ok acc' => processElements els acc'

/-- The outer loop of `getPluralMethods` over `wsdl.wsdl.types`. -/
def processTypes : List WsdlType → List String → Except String (List String)
  | [], acc => Except.ok acc
  | t :: ts, acc =>
    match processElements t.elements acc with
    | Except.error e => Except.error e
    | Except.ok acc' => processTypes ts acc'

/-- `getPluralMethods` (client.py lines 183-209): the set of method names
classified as returning a list, or the exception raised while walking the
types. -/
def getPluralMethods (wsdl : Wsdl) : Except String (List String) :=
  processTypes wsdl.types []

/-- The condition under which the source marks the element `el` as
classifying operation `op` Plural: the content chain is fully present,
the element's `name` attribute exists and ends with `'Response'`, the
first inner element exists and declares `maxOccurs = 'unbounded'`, and
`op` is the name with its last 8 characters stripped. -/
def elMarksPlural (el : SchemaElement) (op : String) : Bool :=
  match el.content with
  | ElContent.contentInner (first :: _) =>
    match lookupAttr el.attributes "name", lookupAttr first.attributes "maxOccurs" with
    | Except.ok nm, Except.ok mo =>
      pyEndswith nm "Response" && decide (mo = "unbounded") && decide (op = pySliceDropRight nm 8)
    | _, _ => false
  | _ => false

/-- The structural condition under which `processElement` cannot raise:
either the content chain is shallow (the element is skipped), or the
`name` attribute is present and, when the name ends in `'Response'`, the
innermost content list is nonempty and its first element carries a
`maxOccurs` attribute. -/
def elSafe (el : SchemaElement) : Bool :=
  match el.content with
  | ElContent.contentInner items =>
    match lookupAttr el.attributes "name" with
    | Except.error _ => false
    | Except.ok nm =>
      if pyEndswith nm "Response" then
        match items with
        | [] => false
        | first :: _ =>
          match lookupAttr first.attributes "maxOccurs" with
          | Except.error _ => false
          | Except.ok _ => true
      else true
  | _ => true

/-- `os.path.join(a, b)` for POSIX paths (the joins in the module only
ever append relative components). -/
def pyPathJoin (a b : String) : String :=
  if pyStartswith b "/" then b
  else if a = "" || pyEndswith a "/" then a ++ b
  else a ++ "/" ++ b

/-- `os.path.dirname(p)` for POSIX paths: everything before the final
slash, with trailing slashes stripped unless the head is all slashes. -/
def pyDirname (p : String) : String :=
  let cs := p.data
  let i := (cs.length - (cs.reverse.takeWhile (fun c => !(c = '/'))).length)
  let head := cs.take i
  if head.isEmpty || head.all (fun c => c = '/') then String.mk head
  else String.mk (head.reverse.dropWhile (fun c => c = '/')).reverse

/-- Add a path to a set of paths. -/
def addPath (ps : List String) (p : String) : List String :=
  if keyMem ps p then ps else ps ++ [p]

/-- The local filesystem as `getServiceLocation` observes and mutates it:
the set of existing directories and the set of existing files. -/
structure FS where
  dirs : List String
  files : List String
deriving DecidableEq

/-- `distutils.dir_util.mkpath`: ensure the directory (and implicitly its
ancestors) exists; recorded as the leaf directory path. -/
def mkpath (fs : FS) (dir : String) : FS :=
  FS.mk (addPath fs.dirs dir) fs.files

/-- What one call to `getServiceLocation` produces when it returns: the
location string, the filesystem afterwards, and how many network fetches
(`urllib.urlretrieve`) were performed during the call. -/
structure LocResult where
  loc : String
  fs : FS
  fetches : Nat
deriving DecidableEq

/-- How the bare name `sys` resolves in the module: `client.py` imports
`os`, `distutils.dir_util`, `urllib` and `SOAPpy` but never `sys`, so the
occurrence of `sys.platform` on line 151 does not resolve and raises
`NameError`. -/
def sysPlatformModule : Option String := none

/-- `getServiceLocation` (client.py lines 135-163), parameterised by the
resolution of `sys.platform` (`none` = the name `sys` is unbound, as in
the shipped module). For `wsdl=False` it returns the live URL with no
filesystem effect and no fetch; for `wsdl=True` it evaluates
`sys.platform[:3] == 'win'`, sanitises the cache path on Windows, creates
the cache directory, and fetches the live URL into the cache file unless
the file exists and `cached` is true. -/
def getServiceLocation (sysPlatform : Option String) (server version cache_dir : String)
    (service_name : String) (wsdl cached : Bool) (fs : FS) : Except String LocResult :=
  let serviceBranch0 := pyPathJoin (pyPathJoin "api/adwords" version) service_name
  let serviceBranch := if wsdl then serviceBranch0 ++ "?wsdl" else serviceBranch0
  let liveLoc := pyPathJoin server serviceBranch
  if wsdl then
    let cachedLoc0 := pyPathJoin cache_dir serviceBranch
    match sysPlatform with
    | none => Except.error "NameError: name 'sys' is not defined"
    | some plat =>
      let cachedLoc := if pyTakeChars plat 3 = "win" then pyReplaceChar cachedLoc0 '?' '.' else cachedLoc0
      let fs1 := mkpath fs (pyDirname cachedLoc)
      if keyMem fs1.files cachedLoc && cached then
        Except.ok (LocResult.mk cachedLoc fs1 0)
      else
        Except.ok (LocResult.mk cachedLoc (FS.mk fs1.dirs (addPath fs1.files cachedLoc)) 1)
  else
    Except.ok (LocResult.mk liveLoc fs 0)

/-- The six header fields attached to every call (client.py lines
172-178). -/
structure Headers where
  email : Option String
  password : Option String
  useragent : Option String
  developerToken : Option String
  applicationToken : Option String
  clientEmail : Option String
deriving DecidableEq

/-- The fields of the `AdWordsClient` object that the binding machinery
reads (client.py lines 61-69). -/
structure ClientState where
  email : Option String
  password : Option String
  developer_token : Option String
  application_token : Option String
  user_agent : Option String
  client_email : Option String
  server : String
  version : String
  cache_dir : String
deriving DecidableEq

/-- The header block built by `getService` from the current client
fields. -/
def mkHeaders (st : ClientState) : Headers :=
  Headers.mk st.email st.password st.user_agent st.developer_token st.application_token st.client_email

/-- One operation binding installed on the facade: the header snapshot of
the `SOAPProxy` it calls through, the proxy's service URL, the method
name, and whether `expectsList` wraps it. -/
structure Binding where
  headers : Headers
  location : String
  meth : String
  wrapped : Bool
deriving DecidableEq

/-- The facade's set of dynamically installed operation attributes. -/
abbrev AttrMap : Type := List (String × Binding)

/-- Python `setattr(self, k, b)`: replace the attribute if present,
otherwise add it. -/
def setAttr (m : AttrMap) (k : String) (b : Binding) : AttrMap :=
  if m.any (fun p => decide (p.1 = k)) then
    m.map (fun p => if p.1 = k then (k, b) else p)
  else
    m ++ [(k, b)]

/-- `getService` (client.py lines 165-181): a `SOAPProxy` carrying the
header block built from the current client fields and the live service
URL (`getServiceLocation` with `wsdl=False`, which cannot raise). -/
def getService (st : ClientState) (service_name : String) : Headers × String :=
  (mkHeaders st, pyPathJoin st.server (pyPathJoin (pyPathJoin "api/adwords" st.version) service_name))

/-- The class-level tuple `AdWordsClient.services` (client.py lines
24-35). -/
def services : List String :=
  ["Account", "AdGroup", "Ad", "Campaign", "Criterion", "Report"]

/-- The body of the service loop of `buildServices` (client.py lines
122-133) for one service name, abstracting the description-loading step
`SOAPpy.WSDL.Proxy(self.getServiceLocation(fullName, wsdl=True,
cached=True))` as the oracle `loadWsdl` (the parser is the external
`SOAPpy` library; in the shipped module the location resolution itself
always raises `NameError`, see `sysPlatformModule`). On success every
method of the description is installed with `setattr`, wrapped by
`expectsList` exactly when `getPluralMethods` classified it Plural. -/
def buildService (loadWsdl : String → Except String Wsdl) (st : ClientState)
    (m : AttrMap) (service : String) : Except String AttrMap :=
  match loadWsdl (service ++ "Service") with
  | Except.error e => Except.error e
  | Except.ok w =>
    match getPluralMethods w with
    | Except.error e => Except.error e
    | Except.ok plurals =>
      Except.ok (w.methods.foldl
        (fun acc meth => setAttr acc meth
          (Binding.mk (getService st (service ++ "Service")).1
            (getService st (service ++ "Service")).2 meth (keyMem plurals meth))) m)

/-- The service loop of `buildServices` run on a list of service names:
the attribute map is mutated in place service by service, so when a step
raises, the map reached so far is kept and the exception is reported
alongside it. -/
def buildServicesFrom (loadWsdl : String → Except String Wsdl) (st : ClientState) :
    List String → AttrMap → AttrMap × Option String
  | [], m => (m, none)
  | s :: rest, m =>
    match buildService loadWsdl st m s with
    | Except.error e => (m, some e)
    | Except.ok m' => buildServicesFrom loadWsdl st rest m'

/-- The exception-free run of the service loop over a list of service
names (used to name the state reached after a successful prefix). -/
def buildSeq (loadWsdl : String → Except String Wsdl) (st : ClientState) :
    List String → AttrMap → Except String AttrMap
  | [], m => Except.ok m
  | s :: rest, m =>
    match buildService loadWsdl st m s with
    | Except.error e => Except.error e
    | Except.ok m' => buildSeq loadWsdl st rest m'

/-- `buildServices` (client.py lines 117-133): the service loop over the
configured `services` tuple. -/
def buildServices (loadWsdl : String → Except String Wsdl) (st : ClientState)
    (m : AttrMap) : AttrMap × Option String :=
  buildServicesFrom loadWsdl st services m

/-- The `client_email` property setter `__SetClientEmail` (client.py
lines 74-81): store the new value, then rebuild all services with the
updated state. -/
def setClientEmail (loadWsdl : String → Except String Wsdl) (st : ClientState)
    (m : AttrMap) (email : Option String) : ClientState × AttrMap × Option String :=
  let st' := ClientState.mk st.email st.password st.developer_token st.application_token
    st.user_agent email st.server st.version st.cache_dir
  (st', buildServices loadWsdl st' m)

/-- Generic string-valued dict as an association list with unique keys in
insertion order; `dictGet` is `d[k]`-as-`Option`, `dictSet` is
`d[k] = v`. -/
def dictGet : List (String × String) → String → Option String
  | [], _ => none
  | p :: ps, k => if p.1 = k then some p.2 else dictGet ps k

/-- `d[k] = v` on a dict: overwrite the entry in place if the key is
present, otherwise append it. -/
def dictSet : List (String × String) → String → String → List (String × String)
  | [], k, v => [(k, v)]
  | p :: ps, k, v => if p.1 = k then (k, v) :: ps else p :: dictSet ps k v

/-- The keys of an association list are pairwise distinct (always true of
a Python dict's items). -/
def keysNodup : List (String × String) → Bool
  | [] => true
  | p :: ps => (!(ps.any (fun q => decide (q.1 = p.1)))) && keysNodup ps

/-- The `(stripped key, value)` pairs contributed by the configuration
entries whose keys start with the given key prefix (client.py lines
224-225); `pfx` is the `prefix` argument of `client_from_config` (that
argument name cannot be used here). -/
def matchingPairs (configuration : List (String × String)) (pfx : String) :
    List (String × String) :=
  (configuration.filter (fun p => pyStartswith p.1 pfx)).map
    (fun p => (pyDropChars p.1 (pyLen pfx), p.2))

/-- The `options` dict built by the comprehension in `client_from_config`
(client.py lines 224-225): `dict(...)` keeps the last value for a
repeated key. -/
def extractOptions (configuration : List (String × String)) (pfx : String) :
    List (String × String) :=
  (matchingPairs configuration pfx).foldl (fun d p => dictSet d p.1 p.2) []

/-- The default value of the `prefix` argument of `client_from_config`. -/
def defaultPfx : String := "adwords."

/-- `client_from_config` (client.py lines 212-228) up to the keyword
mapping it passes to `AdWordsClient(**options)`: the extracted options
updated with the caller's keyword overrides (`options.update(kwargs)`). -/
def client_from_config (configuration : List (String × String)) (pfx : String)
    (kwargs : List (String × String)) : List (String × String) :=
  kwargs.foldl (fun d p => dictSet d p.1 p.2) (extractOptions configuration pfx)

/-- C2 witness: a description whose `GetCampaignsResponse` element
declares `maxOccurs = 'unbounded'` classifies exactly `GetCampaigns`. -/
def c2Wsdl : Wsdl :=
  Wsdl.mk ["GetCampaigns"]
    [WsdlType.mk
      [SchemaElement.mk [("name", "GetCampaignsResponse")]
        (ElContent.contentInner [InnerElem.mk [("maxOccurs", "unbounded")]]),
       SchemaElement.mk [] ElContent.noContent]]

/-- C3 counterexample: a description whose `GetCampaignsResponse` element
has the full content chain but an empty innermost content list makes the
classification pass raise `IndexError` instead of skipping the element,
so the pass does not tolerate every malformed element. -/
def c3BadWsdl : Wsdl :=
  Wsdl.mk []
    [WsdlType.mk
      [SchemaElement.mk [("name", "GetCampaignsResponse")] (ElContent.contentInner []),
       SchemaElement.mk [("name", "GetAdsResponse")]
         (ElContent.contentInner [InnerElem.mk [("maxOccurs", "unbounded")]])]]

/-- C3 witness: a description containing a shallow element, an element
whose `content.content` lacks inner content, and a well-formed Plural
response element classifies without raising. -/
def c3SafeWsdl : Wsdl :=
  Wsdl.mk ["GetCampaigns"]
    [WsdlType.mk
      [SchemaElement.mk [] ElContent.noContent,
       SchemaElement.mk [("name", "IgnoredResponse")] ElContent.contentNoInner,
       SchemaElement.mk [("name", "GetCampaignsResponse")]
         (ElContent.contentInner [InnerElem.mk [("maxOccurs", "unbounded")]])]]

/-- C6 witness inputs: an oracle for which every service description
loads with one method, and a client state with an initial delegated
client email. -/
def c6L : String → Except String Wsdl :=
  fun _ => Except.ok (Wsdl.mk ["getAccountInfo"] [])

def c6St : ClientState :=
  ClientState.mk none none none none none (some "old@x") "S" "V" "C"

/-- C4 counterexample inputs: loading succeeds for the first configured
service (`Account`) and fails for every other one. -/
def c4L : String → Except String Wsdl :=
  fun n =>
    if n = "AccountService" then Except.ok (Wsdl.mk ["getAccountInfo"] [])
    else Except.error "IOError: fetch failed"

def c4St : ClientState :=
  ClientState.mk none none none none none (some "c@x") "S" "V" "C"

/-- C9 witness inputs: the spec's end-to-end scenario 4. -/
def c9Cfg : List (String × String) := [("adwords.email", "a@b.com"), ("other.key", "x")]

/-- C1: for the callable produced by `expectsList`, a result that carries
a `reverse` attribute passes through unchanged, a result without
`reverse` but with an `id` attribute is returned as the one-element list
containing it, any other result becomes the empty list, and in every
case the returned value carries the `reverse` attribute (it is
sequence-shaped in the sense the wrapper itself tests). -/
theorem c1_expectsList_always_sequence (α : Type) (fn : α → PyVal) (args : α) :
    (hasattr (fn args) "reverse" = true → expectsList fn args = fn args) ∧
    (hasattr (fn args) "reverse" = false → hasattr (fn args) "id" = true →
      expectsList fn args = PyVal.list [fn args]) ∧
    (hasattr (fn args) "reverse" = false → hasattr (fn args) "id" = false →
      expectsList fn args = PyVal.list []) ∧
    hasattr (expectsList fn args) "reverse" = true := by
  have hlist : ∀ xs : List PyVal, hasattr (PyVal.list xs) "reverse" = true := fun _ => rfl
  cases h1 : hasattr (fn args) "reverse" <;> cases h2 : hasattr (fn args) "id" <;>
    refine ⟨?_, ?_, ?_, ?_⟩ <;> simp [expectsList, returnList, h1, h2, hlist]

/-- C1 witness: a bare object carrying an `id` attribute is normalised to
the one-element list containing it. -/
theorem c1_witness :
    expectsList (fun _ : Nat => PyVal.obj ["id"]) 0 = PyVal.list [PyVal.obj ["id"]] :=
  (c1_expectsList_always_sequence Nat (fun _ : Nat => PyVal.obj ["id"]) 0).2.1
    (by decide) (by decide)

/-- C10: the wrapper is total over the shape of the underlying result:
for every returned value (including `None`) it yields pass-through, a
one-element list, or the empty list; `None` in particular yields the
empty list; and, observed through an explicit call trace, the wrapper
invokes the underlying callable exactly once with the caller's arguments
unchanged. -/
theorem c10_expectsList_total :
    (∀ (α : Type) (fn : α → PyVal) (args : α),
      expectsList fn args = fn args ∨ expectsList fn args = PyVal.list [fn args] ∨
        expectsList fn args = PyVal.list []) ∧
    expectsList (fun _ : Unit => PyVal.pyNone) () = PyVal.list [] ∧
    (∀ (α : Type) (g : α → PyVal) (args : α) (log : List α),
      returnListTrace (fun x s => (g x, s ++ [x])) args log = (returnList g args, log ++ [args])) := by
  refine ⟨fun α fn args => ?_, rfl, fun α g args log => ?_⟩
  · cases h1 : hasattr (fn args) "reverse" <;> cases h2 : hasattr (fn args) "id" <;>
      simp [expectsList, returnList, h1, h2]
  · cases h1 : hasattr (g args) "reverse" <;> cases h2 : hasattr (g args) "id" <;>
      simp [returnListTrace, returnList, h1, h2]

theorem keyMem_append (xs ys : List String) (k : String) :
    keyMem (xs ++ ys) k = (keyMem xs k || keyMem ys k) := by
  induction xs with
  | nil => simp [keyMem]
  | cons x xs ih => by_cases h : x = k <;> simp [keyMem, h, ih]

theorem keyMem_dictInsert (ks : List String) (k op : String) :
    keyMem (dictInsert ks k) op = (keyMem ks op || decide (op = k)) := by
  unfold dictInsert
  by_cases h : keyMem ks k = true
  · by_cases hok : op = k
    · subst hok; simp [h]
    · simp [h, hok]
  · by_cases hok : op = k
    · subst hok; simp [h, keyMem_append, keyMem]
    · simp [h, keyMem_append, keyMem, hok, Ne.symm hok]

theorem processElement_ok_keyMem (el : SchemaElement) (acc acc' : List String) (op : String)
    (h : processElement acc el = Except.ok acc') :
    keyMem acc' op = (keyMem acc op || elMarksPlural el op) := by
  obtain ⟨attrs, content⟩ := el
  cases content with
  | noContent =>
    simp only [processElement, Except.ok.injEq] at h
    subst h
    simp [elMarksPlural]
  | contentNoInner =>
    simp only [processElement, Except.ok.injEq] at h
    subst h
    simp [elMarksPlural]
  | contentInner items =>
    cases hn : lookupAttr attrs "name" with
    | error e => simp [processElement, hn] at h
    | ok nm =>
      cases items with
      | nil =>
        cases he : pyEndswith nm "Response"
        · simp [processElement, hn, he] at h
          subst h
          simp [elMarksPlural]
        · simp [processElement, hn, he] at h
      | cons first rest =>
        cases hm : lookupAttr first.attributes "maxOccurs" with
        | error e =>
          cases he : pyEndswith nm "Response"
          · simp [processElement, hn, he] at h
            subst h
            simp [elMarksPlural, hn, hm]
          · simp [processElement, hn, he, hm] at h
        | ok mo =>
          cases he : pyEndswith nm "Response"
          · simp [processElement, hn, he] at h
            subst h
            simp [elMarksPlural, hn, hm, he]
          · by_cases hu : mo = "unbounded"
            · simp [processElement, hn, he, hm, hu] at h
              subst h
              simp [elMarksPlural, hn, hm, he, hu, keyMem_dictInsert]
            · simp [processElement, hn, he, hm, hu] at h
              subst h
              simp [elMarksPlural, hn, hm, he, hu]

theorem processElements_ok_keyMem (els : List SchemaElement) (acc acc' : List String)
    (op : String) (h : processElements els acc = Except.ok acc') :
    keyMem acc' op = (keyMem acc op || els.any (fun el => elMarksPlural el op)) := by
  induction els generalizing acc with
  | nil =>
    simp [processElements] at h
    subst h
    simp
  | cons el els ih =>
    simp only [processElements] at h
    cases hp : processElement acc el with
    | error e => rw [hp] at h; simp at h
    | ok mid =>
      rw [hp] at h
      rw [ih mid h, processElement_ok_keyMem el acc mid op hp]
      simp [Bool.or_assoc]

theorem processTypes_ok_keyMem (ts : List WsdlType) (acc acc' : List String)
    (op : String) (h : processTypes ts acc = Except.ok acc') :
    keyMem acc' op =
      (keyMem acc op || ts.any (fun t => t.elements.any (fun el => elMarksPlural el op))) := by
  induction ts generalizing acc with
  | nil =>
    simp [processTypes] at h
    subst h
    simp
  | cons t ts ih =>
    simp only [processTypes] at h
    cases hp : processElements t.elements acc with
    | error e => rw [hp] at h; simp at h
    | ok mid =>
      rw [hp] at h
      rw [ih mid h, processElements_ok_keyMem t.elements acc mid op hp]
      simp [Bool.or_assoc]

/-- C2: when the classification pass returns a mapping, an operation name
is in it exactly when some declared type element has the full content
chain, a `name` attribute ending in `'Response'` whose last 8 characters
stripped give the operation name, and a first inner element declaring
`maxOccurs = 'unbounded'`; names absent from the mapping are exactly the
ones no such element supports (`buildServices` leaves those unwrapped,
i.e. Singular). -/
theorem c2_getPluralMethods_characterises (w : Wsdl) (ps : List String)
    (h : getPluralMethods w = Except.ok ps) (op : String) :
    keyMem ps op = w.types.any (fun t => t.elements.any (fun el => elMarksPlural el op)) := by
  have hk := processTypes_ok_keyMem w.types [] ps op h
  simpa [keyMem] using hk

/-- C2 witness: evaluating the characterisation on `c2Wsdl`. -/
theorem c2_witness :
    keyMem ["GetCampaigns"] "GetCampaigns" =
      c2Wsdl.types.any (fun t => t.elements.any (fun el => elMarksPlural el "GetCampaigns")) :=
  c2_getPluralMethods_characterises c2Wsdl ["GetCampaigns"] (by rfl) "GetCampaigns"

/-- C3 counterexample: on `c3BadWsdl` the classification pass raises
`IndexError` (and never reaches the well-formed `GetAdsResponse`
element), instead of skipping the malformed element as the claim
states. -/
theorem c3_counterexample :
    getPluralMethods c3BadWsdl = Except.error "IndexError: list index out of range" := by
  rfl

theorem processElement_isOk_of_safe (el : SchemaElement) (acc : List String)
    (h : elSafe el = true) : ∃ acc', processElement acc el = Except.ok acc' := by
  obtain ⟨attrs, content⟩ := el
  cases content with
  | noContent => exact ⟨acc, rfl⟩
  | contentNoInner => exact ⟨acc, rfl⟩
  | contentInner items =>
    cases hn : lookupAttr attrs "name" with
    | error e => simp [elSafe, hn] at h
    | ok nm =>
      cases he : pyEndswith nm "Response"
      · exact ⟨acc, by simp [processElement, hn, he]⟩
      · cases items with
        | nil => simp [elSafe, hn, he] at h
        | cons first rest =>
          cases hm : lookupAttr first.attributes "maxOccurs" with
          | error e => simp [elSafe, hn, he, hm] at h
          | ok mo =>
            by_cases hu : mo = "unbounded"
            · exact ⟨dictInsert acc (pySliceDropRight nm 8),
                by simp [processElement, hn, he, hm, hu]⟩
            · exact ⟨acc, by simp [processElement, hn, he, hm, hu]⟩

theorem processElements_isOk_of_safe (els : List SchemaElement) (acc : List String)
    (h : els.all elSafe = true) :
    ∃ acc', processElements els acc = Except.ok acc' := by
  induction els generalizing acc with
  | nil => exact ⟨acc, rfl⟩
  | cons el els ih =>
    simp only [List.all_cons, Bool.and_eq_true] at h
    obtain ⟨mid, hmid⟩ := processElement_isOk_of_safe el acc h.1
    obtain ⟨acc', hacc⟩ := ih mid h.2
    exact ⟨acc', by simp [processElements, hmid, hacc]⟩

theorem processTypes_isOk_of_safe (ts : List WsdlType) (acc : List String)
    (h : ts.all (fun t => t.elements.all elSafe) = true) :
    ∃ acc', processTypes ts acc = Except.ok acc' := by
  induction ts generalizing acc with
  | nil => exact ⟨acc, rfl⟩
  | cons t ts ih =>
    simp only [List.all_cons, Bool.and_eq_true] at h
    obtain ⟨mid, hmid⟩ := processElements_isOk_of_safe t.elements acc h.1
    obtain ⟨acc', hacc⟩ := ih mid h.2
    exact ⟨acc', by simp [processTypes, hmid, hacc]⟩

/-- C3 amended: classification tolerates elements whose content chain is
shallower than expected (they are skipped and the rest still classified),
but it is not exception-free in general: when every element either fails
a content guard or carries a `name` attribute and, for `'Response'`
names, a nonempty innermost content list whose first element carries
`maxOccurs`, the pass completes without raising.  (Without that
condition it raises `KeyError`/`IndexError`, aborting the whole pass, as
the counterexample shows.) -/
theorem c3_amended_classification_safe (w : Wsdl)
    (h : w.types.all (fun t => t.elements.all elSafe) = true) :
    (getPluralMethods w).isOk = true := by
  obtain ⟨ps, hp⟩ := processTypes_isOk_of_safe w.types [] h
  simp [getPluralMethods, hp, Except.isOk, Except.toBool]

/-- C3 witness: the amended safety condition on `c3SafeWsdl`. -/
theorem c3_witness : (getPluralMethods c3SafeWsdl).isOk = true :=
  c3_amended_classification_safe c3SafeWsdl (by rfl)

/-- C8: with `wsdl=False`, `getServiceLocation` returns the live URL
(server joined with `api/adwords`, the version, and the service name, no
`?wsdl` suffix), leaves the filesystem untouched, and performs no
fetch — for every platform resolution, including the shipped module's
unresolved `sys`. -/
theorem c8_getServiceLocation_live_url (sysPlatform : Option String)
    (server version cache_dir service_name : String) (cached : Bool) (fs : FS) :
    getServiceLocation sysPlatform server version cache_dir service_name false cached fs =
      Except.ok (LocResult.mk
        (pyPathJoin server (pyPathJoin (pyPathJoin "api/adwords" version) service_name))
        fs 0) := by
  rfl

/-- C5: resolving a description location (`wsdl=True`) never reaches the
cache logic in the shipped module: the first thing evaluated on that path
is `sys.platform`, and `sys` is never imported, so the call raises
`NameError` — no fetch happens and no cache path is returned, on the
first call or any later one. -/
theorem c5_resolve_description_raises :
    getServiceLocation sysPlatformModule "https://adwords.google.com" "v11" "/tmp"
      "CampaignService" true true (FS.mk [] []) =
      Except.error "NameError: name 'sys' is not defined" := by
  rfl

/-- C7: requesting a description (`wsdl=True`) raises `NameError` before
the cache path is sanitised, before `mkpath` creates any directory and
before any fetch, because `sys.platform` is evaluated first and `sys` is
never imported. -/
theorem c7_cache_path_never_computed :
    getServiceLocation sysPlatformModule "https://adwords.google.com" "v11" "/tmp/x"
      "AccountService" true false (FS.mk [] []) =
      Except.error "NameError: name 'sys' is not defined" := by
  rfl

/-- With the name `sys` bound (the one-line fix `import sys`), the
`wsdl=True` path behaves as documented: the first resolve creates the
cache directory, fetches once into
`<cache_dir>/api/adwords/<version>/<Service>?wsdl`, the second resolve
with `cached=True` reuses the file with no fetch, and on a `win*`
platform the `?` in the cache path is replaced by `.`. -/
theorem getServiceLocation_fixed_module_demo :
    (getServiceLocation (some "linux2") "https://adwords.google.com" "v11" "/tmp"
        "CampaignService" true true (FS.mk [] []) =
      Except.ok (LocResult.mk "/tmp/api/adwords/v11/CampaignService?wsdl"
        (FS.mk ["/tmp/api/adwords/v11"] ["/tmp/api/adwords/v11/CampaignService?wsdl"]) 1)) ∧
    (getServiceLocation (some "linux2") "https://adwords.google.com" "v11" "/tmp"
        "CampaignService" true true
        (FS.mk ["/tmp/api/adwords/v11"] ["/tmp/api/adwords/v11/CampaignService?wsdl"]) =
      Except.ok (LocResult.mk "/tmp/api/adwords/v11/CampaignService?wsdl"
        (FS.mk ["/tmp/api/adwords/v11"] ["/tmp/api/adwords/v11/CampaignService?wsdl"]) 0)) ∧
    (getServiceLocation (some "win32") "https://adwords.google.com" "v11" "/tmp"
        "CampaignService" true false (FS.mk [] []) =
      Except.ok (LocResult.mk "/tmp/api/adwords/v11/CampaignService.wsdl"
        (FS.mk ["/tmp/api/adwords/v11"] ["/tmp/api/adwords/v11/CampaignService.wsdl"]) 1)) :=
  ⟨rfl, rfl, rfl⟩

theorem mem_setAttr (m : AttrMap) (k k' : String) (b b' : Binding)
    (h : (k, b) ∈ setAttr m k' b') : (k, b) ∈ m ∨ (k = k' ∧ b = b') := by
  unfold setAttr at h
  by_cases hc : m.any (fun p => decide (p.1 = k')) = true
  · rw [if_pos hc] at h
    obtain ⟨p, hp, hfp⟩ := List.mem_map.mp h
    by_cases hpk : p.1 = k'
    · rw [if_pos hpk] at hfp
      simp only [Prod.mk.injEq] at hfp
      exact Or.inr ⟨hfp.1.symm, hfp.2.symm⟩
    · rw [if_neg hpk] at hfp
      exact Or.inl (hfp ▸ hp)
  · rw [if_neg hc] at h
    rcases List.mem_append.mp h with h | h
    · exact Or.inl h
    · simp only [List.mem_singleton, Prod.mk.injEq] at h
      exact Or.inr h

theorem mem_setAttr_self (m : AttrMap) (k : String) (b b' : Binding)
    (h : (k, b) ∈ setAttr m k b') : b = b' := by
  unfold setAttr at h
  by_cases hc : m.any (fun p => decide (p.1 = k)) = true
  · rw [if_pos hc] at h
    obtain ⟨p, hp, hfp⟩ := List.mem_map.mp h
    by_cases hpk : p.1 = k
    · rw [if_pos hpk] at hfp
      simp only [Prod.mk.injEq] at hfp
      exact hfp.2.symm
    · rw [if_neg hpk] at hfp
      exact absurd (congrArg Prod.fst hfp ▸ hpk) (by simp [hfp])
  · rw [if_neg hc] at h
    rcases List.mem_append.mp h with h | h
    · exact absurd (List.any_eq_true.mpr ⟨(k, b), h, by simp⟩) hc
    · simp only [List.mem_singleton, Prod.mk.injEq] at h
      exact h.2

theorem mem_setAttr_other (m : AttrMap) (k k' : String) (b b' : Binding) (hne : k ≠ k') :
    ((k, b) ∈ setAttr m k' b') ↔ (k, b) ∈ m := by
  unfold setAttr
  by_cases hc : m.any (fun p => decide (p.1 = k')) = true
  · rw [if_pos hc]
    constructor
    · intro h
      obtain ⟨p, hp, hfp⟩ := List.mem_map.mp h
      by_cases hpk : p.1 = k'
      · rw [if_pos hpk] at hfp
        simp only [Prod.mk.injEq] at hfp
        exact absurd hfp.1.symm hne
      · rw [if_neg hpk] at hfp
        exact hfp ▸ hp
    · intro h
      refine List.mem_map.mpr ⟨(k, b), h, ?_⟩
      rw [if_neg (by simpa using hne)]
  · rw [if_neg hc]
    constructor
    · intro h
      rcases List.mem_append.mp h with h | h
      · exact h
      · simp only [List.mem_singleton, Prod.mk.injEq] at h
        exact absurd h.1 hne
    · intro h
      exact List.mem_append.mpr (Or.inl h)

theorem mem_foldl_setAttr (fresh : String → Binding) (meths : List String) (m : AttrMap)
    (k : String) (b : Binding)
    (h : (k, b) ∈ meths.foldl (fun acc x => setAttr acc x (fresh x)) m) :
    (k, b) ∈ m ∨ (keyMem meths k = true ∧ b = fresh k) := by
  induction meths generalizing m with
  | nil => exact Or.inl h
  | cons x xs ih =>
    rcases ih (setAttr m x (fresh x)) h with h' | ⟨hk, hb⟩
    · rcases mem_setAttr m k x b (fresh x) h' with h'' | ⟨hkx, hb⟩
      · exact Or.inl h''
      · exact Or.inr ⟨by simp [keyMem, hkx], hkx ▸ hb⟩
    · refine Or.inr ⟨?_, hb⟩
      by_cases hxk : x = k <;> simp [keyMem, hxk, hk]

theorem foldl_setAttr_untouched (fresh : String → Binding) (meths : List String) (m : AttrMap)
    (k : String) (hk : keyMem meths k = false) (b : Binding) :
    ((k, b) ∈ meths.foldl (fun acc x => setAttr acc x (fresh x)) m) ↔ (k, b) ∈ m := by
  induction meths generalizing m with
  | nil => exact Iff.rfl
  | cons x xs ih =>
    have hxk : ¬(x = k) := by
      intro hcon
      simp [keyMem, hcon] at hk
    have hxs : keyMem xs k = false := by
      simpa [keyMem, hxk] using hk
    exact (ih (setAttr m x (fresh x)) hxs).trans
      (mem_setAttr_other m k x b (fresh x) (fun hcon => hxk hcon.symm))

theorem foldl_setAttr_override (fresh : String → Binding) (meths : List String) (m : AttrMap)
    (k : String) (b : Binding) (hk : keyMem meths k = true)
    (h : (k, b) ∈ meths.foldl (fun acc x => setAttr acc x (fresh x)) m) :
    b = fresh k := by
  induction meths generalizing m with
  | nil => simp [keyMem] at hk
  | cons x xs ih =>
    by_cases hxs : keyMem xs k = true
    · exact ih (setAttr m x (fresh x)) hxs h
    · have hxk : x = k := by
        by_cases hcon : x = k
        · exact hcon
        · simp [keyMem, hcon, hxs] at hk
      have hmem := (foldl_setAttr_untouched fresh xs (setAttr m x (fresh x)) k
        (by simpa using hxs) b).mp h
      exact hxk ▸ mem_setAttr_self m k b (fresh x) (hxk ▸ hmem)

theorem buildService_ok_mem (L : String → Except String Wsdl) (st : ClientState)
    (m m' : AttrMap) (s : String) (h : buildService L st m s = Except.ok m')
    (k : String) (b : Binding) (hb : (k, b) ∈ m') :
    (b.headers = mkHeaders st ∧ ∃ w, L (s ++ "Service") = Except.ok w ∧ keyMem w.methods k = true) ∨
    ((k, b) ∈ m ∧ ∀ w, L (s ++ "Service") = Except.ok w → keyMem w.methods k = false) := by
  cases hw : L (s ++ "Service") with
  | error e => simp [buildService, hw] at h
  | ok w =>
    cases hp : getPluralMethods w with
    | error e => simp [buildService, hw, hp] at h
    | ok plurals =>
      simp only [buildService, hw, hp, Except.ok.injEq] at h
      subst h
      by_cases hk : keyMem w.methods k = true
      · have hb' := foldl_setAttr_override
          (fun meth => Binding.mk (getService st (s ++ "Service")).1
            (getService st (s ++ "Service")).2 meth (keyMem plurals meth))
          w.methods m k b hk hb
        refine Or.inl ⟨?_, w, rfl, hk⟩
        rw [hb']
        rfl
      · have hmem := (foldl_setAttr_untouched
          (fun meth => Binding.mk (getService st (s ++ "Service")).1
            (getService st (s ++ "Service")).2 meth (keyMem plurals meth))
          w.methods m k (by simpa using hk) b).mp hb
        refine Or.inr ⟨hmem, fun w' hw' => ?_⟩
        injection hw' with hww
        subst hww
        simpa using hk

theorem buildServicesFrom_ok_mem (L : String → Except String Wsdl) (st : ClientState)
    (svcs : List String) (m m' : AttrMap) (h : buildServicesFrom L st svcs m = (m', none))
    (k : String) (b : Binding) (hb : (k, b) ∈ m') :
    b.headers = mkHeaders st ∨
    ((k, b) ∈ m ∧
      ∀ s, s ∈ svcs → ∀ w, L (s ++ "Service") = Except.ok w → keyMem w.methods k = false) := by
  induction svcs generalizing m with
  | nil =>
    simp only [buildServicesFrom, Prod.mk.injEq] at h
    rw [← h.1] at hb
    exact Or.inr ⟨hb, by simp⟩
  | cons s rest ih =>
    simp only [buildServicesFrom] at h
    cases hs : buildService L st m s with
    | error e => rw [hs] at h; simp at h
    | ok mid =>
      rw [hs] at h
      rcases ih mid h with hnew | ⟨hmem, huntouched⟩
      · exact Or.inl hnew
      · rcases buildService_ok_mem L st m mid s hs k b hmem with ⟨hh, _⟩ | ⟨hm, hsvc⟩
        · exact Or.inl hh
        · refine Or.inr ⟨hm, fun s' hs' w hw => ?_⟩
          rcases List.mem_cons.mp hs' with rfl | hmem'
          · exact hsvc w hw
          · exact huntouched s' hmem' w hw

theorem buildServicesFrom_ok_origin (L : String → Except String Wsdl) (st : ClientState)
    (svcs : List String) (m m' : AttrMap) (h : buildServicesFrom L st svcs m = (m', none))
    (k : String) (b : Binding) (hb : (k, b) ∈ m') :
    (k, b) ∈ m ∨
    ∃ s, s ∈ svcs ∧ ∃ w, L (s ++ "Service") = Except.ok w ∧ keyMem w.methods k = true := by
  induction svcs generalizing m with
  | nil =>
    simp only [buildServicesFrom, Prod.mk.injEq] at h
    rw [← h.1] at hb
    exact Or.inl hb
  | cons s rest ih =>
    simp only [buildServicesFrom] at h
    cases hs : buildService L st m s with
    | error e => rw [hs] at h; simp at h
    | ok mid =>
      rw [hs] at h
      rcases ih mid h with hmid | ⟨s', hs', hex⟩
      · rcases buildService_ok_mem L st m mid s hs k b hmid with ⟨_, w, hw, hk⟩ | ⟨hm, _⟩
        · exact Or.inr ⟨s, List.mem_cons_self s rest, w, hw, hk⟩
        · exact Or.inl hm
      · exact Or.inr ⟨s', List.mem_cons_of_mem s hs', hex⟩

/-- C6: when a facade was built successfully and the `client_email`
setter's synchronous rebuild also completes successfully, every binding
exposed afterwards carries the header block built from the updated state
(so its `clientEmail` header is the new value, and all six header fields
come from one credential snapshot — no mix within or across bindings). -/
theorem c6_rebuild_headers (L : String → Except String Wsdl) (st : ClientState)
    (em : Option String) (m₁ : AttrMap) (st₂ : ClientState) (m₂ : AttrMap)
    (h1 : buildServices L st [] = (m₁, none))
    (h2 : setClientEmail L st m₁ em = (st₂, m₂, none)) :
    m₂.all (fun p => decide (p.2.headers = mkHeaders st₂)) = true ∧
    m₂.all (fun p => decide (p.2.headers.clientEmail = em)) = true := by
  simp only [setClientEmail, Prod.mk.injEq] at h2
  obtain ⟨hst, hb⟩ := h2
  rw [hst] at hb
  have hall : ∀ p, p ∈ m₂ → p.2.headers = mkHeaders st₂ := by
    intro p hp
    have hb' : (p.1, p.2) ∈ m₂ := by simpa using hp
    rcases buildServicesFrom_ok_mem L st₂ services m₁ m₂ hb p.1 p.2 hb' with hnew | ⟨hmem, hunt⟩
    · exact hnew
    · rcases buildServicesFrom_ok_origin L st services [] m₁ h1 p.1 p.2 hmem with
        hnil | ⟨s, hs, w, hw, hk⟩
      · simp at hnil
      · rw [hunt s hs w hw] at hk
        simp at hk
  constructor
  · exact List.all_eq_true.mpr (fun p hp => by simp [hall p hp])
  · refine List.all_eq_true.mpr (fun p hp => ?_)
    rw [hall p hp, ← hst]
    simp [mkHeaders]

/-- C6 witness: after setting `client_email` to a new value on the facade
built by `c6L`/`c6St`, every binding's header block is the one derived
from the updated state. -/
theorem c6_witness :
    ((setClientEmail c6L c6St (buildServices c6L c6St []).1 (some "new@x")).2.1).all
      (fun p => decide (p.2.headers =
        mkHeaders (setClientEmail c6L c6St (buildServices c6L c6St []).1 (some "new@x")).1)) =
      true :=
  (c6_rebuild_headers c6L c6St (some "new@x") (buildServices c6L c6St []).1
    (setClientEmail c6L c6St (buildServices c6L c6St []).1 (some "new@x")).1
    (setClientEmail c6L c6St (buildServices c6L c6St []).1 (some "new@x")).2.1
    (by decide) (by decide)).1

theorem buildSeq_append_error (L : String → Except String Wsdl) (st : ClientState)
    (pre : List String) (s : String) (post : List String) (m m₁ : AttrMap) (e : String)
    (h1 : buildSeq L st pre m = Except.ok m₁)
    (h2 : buildService L st m₁ s = Except.error e) :
    buildServicesFrom L st (pre ++ s :: post) m = (m₁, some e) := by
  induction pre generalizing m with
  | nil =>
    simp only [buildSeq, Except.ok.injEq] at h1
    subst h1
    simp [buildServicesFrom, h2]
  | cons x xs ih =>
    simp only [buildSeq] at h1
    cases hx : buildService L st m x with
    | error e' => rw [hx] at h1; simp at h1
    | ok mid =>
      rw [hx] at h1
      simp only [List.cons_append, buildServicesFrom, hx]
      exact ih mid h1

/-- C4 amended: a failure while rebuilding is not atomic — the loop stops
at the failing service, keeping every binding installed by the services
processed before it (built with the current credentials) next to the
untouched older bindings; the pre-rebuild state is preserved only when
the failure happens before the first binding is installed. -/
theorem c4_amended_partial_rebuild (L : String → Except String Wsdl) (st : ClientState)
    (pre : List String) (s : String) (post : List String) (m m₁ : AttrMap) (e : String)
    (hsvc : services = pre ++ s :: post)
    (h1 : buildSeq L st pre m = Except.ok m₁)
    (h2 : buildService L st m₁ s = Except.error e) :
    buildServices L st m = (m₁, some e) := by
  unfold buildServices
  rw [hsvc]
  exact buildSeq_append_error L st pre s post m m₁ e h1 h2

/-- C4 counterexample: starting a rebuild from an empty binding set with
an oracle that fails on the second configured service raises, yet the
facade's binding set is no longer the pre-rebuild one — the first
service's binding has already been installed. -/
theorem c4_counterexample :
    (buildServices c4L c4St []).2 = some "IOError: fetch failed" ∧
    (buildServices c4L c4St []).1 ≠ ([] : AttrMap) := by
  exact ⟨by decide, by decide⟩

/-- C4 witness: with `c4L` failing at the second configured service, the
rebuild ends with the first service's freshly installed binding kept and
the raised error reported. -/
theorem c4_witness :
    buildServices c4L c4St [] =
      ([("getAccountInfo",
          Binding.mk (mkHeaders c4St) "S/api/adwords/V/AccountService" "getAccountInfo" false)],
        some "IOError: fetch failed") :=
  c4_amended_partial_rebuild c4L c4St ["Account"] "AdGroup"
    ["Ad", "Campaign", "Criterion", "Report"] []
    [("getAccountInfo",
      Binding.mk (mkHeaders c4St) "S/api/adwords/V/AccountService" "getAccountInfo" false)]
    "IOError: fetch failed" rfl (by rfl) (by rfl)

theorem dictGet_dictSet_self (d : List (String × String)) (k v : String) :
    dictGet (dictSet d k v) k = some v := by
  induction d with
  | nil => simp [dictSet, dictGet]
  | cons p ps ih => by_cases h : p.1 = k <;> simp [dictSet, dictGet, h, ih]

theorem dictGet_dictSet_other (d : List (String × String)) (k k' v : String) (h : ¬(k' = k)) :
    dictGet (dictSet d k' v) k = dictGet d k := by
  induction d with
  | nil => simp [dictSet, dictGet, h]
  | cons p ps ih =>
    by_cases hp : p.1 = k'
    · have hpk : ¬(p.1 = k) := fun hcon => h (hp ▸ hcon)
      simp [dictSet, dictGet, hp, hpk, h]
    · have hkk : ¬(k = k') := fun hcon => h hcon.symm
      by_cases hpk : p.1 = k <;> simp [dictSet, dictGet, hp, hpk, hkk, ih]

theorem dictGet_fold_skip (ps d : List (String × String)) (k : String)
    (h : ∀ q, q ∈ ps → ¬(q.1 = k)) :
    dictGet (ps.foldl (fun d p => dictSet d p.1 p.2) d) k = dictGet d k := by
  induction ps generalizing d with
  | nil => rfl
  | cons p rest ih =>
    have hd := dictGet_dictSet_other d k p.1 p.2 (h p (List.mem_cons_self p rest))
    calc dictGet ((p :: rest).foldl (fun d p => dictSet d p.1 p.2) d) k
        = dictGet (rest.foldl (fun d p => dictSet d p.1 p.2) (dictSet d p.1 p.2)) k := rfl
      _ = dictGet (dictSet d p.1 p.2) k :=
          ih (dictSet d p.1 p.2) (fun q hq => h q (List.mem_cons_of_mem p hq))
      _ = dictGet d k := hd

theorem dictGet_fold_mem (ps d : List (String × String)) (k v : String)
    (hnodup : keysNodup ps = true) (hmem : (k, v) ∈ ps) :
    dictGet (ps.foldl (fun d p => dictSet d p.1 p.2) d) k = some v := by
  induction ps generalizing d with
  | nil => simp at hmem
  | cons p rest ih =>
    simp only [keysNodup, Bool.and_eq_true, Bool.not_eq_true'] at hnodup
    rcases List.mem_cons.mp hmem with rfl | hmem'
    · have hrest : ∀ q, q ∈ rest → ¬(q.1 = (k, v).1) := by
        intro q hq hcon
        have : rest.any (fun q => decide (q.1 = (k, v).1)) = true :=
          List.any_eq_true.mpr ⟨q, hq, by simp [hcon]⟩
        rw [hnodup.1] at this
        exact Bool.false_ne_true this
      calc dictGet (((k, v) :: rest).foldl (fun d p => dictSet d p.1 p.2) d) k
          = dictGet (rest.foldl (fun d p => dictSet d p.1 p.2) (dictSet d k v)) k := rfl
        _ = dictGet (dictSet d k v) k := dictGet_fold_skip rest (dictSet d k v) k hrest
        _ = some v := dictGet_dictSet_self d k v
    · exact ih (dictSet d p.1 p.2) hnodup.2 hmem'

theorem dictGet_update_fold (kwargs d : List (String × String)) (k : String)
    (h : keysNodup kwargs = true) :
    dictGet (kwargs.foldl (fun d p => dictSet d p.1 p.2) d) k =
      (match dictGet kwargs k with
       | some v => some v
       | none => dictGet d k) := by
  induction kwargs generalizing d with
  | nil => rfl
  | cons p rest ih =>
    simp only [keysNodup, Bool.and_eq_true, Bool.not_eq_true'] at h
    by_cases hpk : p.1 = k
    · have hrest : ∀ q, q ∈ rest → ¬(q.1 = k) := by
        intro q hq hcon
        have : rest.any (fun q => decide (q.1 = p.1)) = true :=
          List.any_eq_true.mpr ⟨q, hq, by simp [hcon, hpk]⟩
        rw [h.1] at this
        exact Bool.false_ne_true this
      calc dictGet ((p :: rest).foldl (fun d p => dictSet d p.1 p.2) d) k
          = dictGet (rest.foldl (fun d p => dictSet d p.1 p.2) (dictSet d p.1 p.2)) k := rfl
        _ = dictGet (dictSet d p.1 p.2) k := dictGet_fold_skip rest (dictSet d p.1 p.2) k hrest
        _ = some p.2 := by rw [hpk]; exact dictGet_dictSet_self d k p.2
        _ = (match dictGet (p :: rest) k with
             | some v => some v
             | none => dictGet d k) := by simp [dictGet, hpk]
    · calc dictGet ((p :: rest).foldl (fun d p => dictSet d p.1 p.2) d) k
          = dictGet (rest.foldl (fun d p => dictSet d p.1 p.2) (dictSet d p.1 p.2)) k := rfl
        _ = (match dictGet rest k with
             | some v => some v
             | none => dictGet (dictSet d p.1 p.2) k) := ih (dictSet d p.1 p.2) h.2
        _ = (match dictGet (p :: rest) k with
             | some v => some v
             | none => dictGet d k) := by
              rw [dictGet_dictSet_other d k p.1 p.2 hpk]
              simp [dictGet, hpk]

/-- C9: the option mapping handed to the constructor contains exactly the
configuration entries whose keys start with the given key prefix, under
their prefix-stripped names; entries with non-matching keys are absent;
and a caller-supplied keyword override replaces any same-named extracted
option.  (The hypotheses state that the dicts have unique keys, which
Python guarantees for `configuration` and `**kwargs`.) -/
theorem c9_client_from_config_options (cfg kwargs : List (String × String)) (pfx : String)
    (hkw : keysNodup kwargs = true)
    (hmp : keysNodup (matchingPairs cfg pfx) = true) :
    (∀ k, dictGet (client_from_config cfg pfx kwargs) k =
      (match dictGet kwargs k with
       | some v => some v
       | none => dictGet (extractOptions cfg pfx) k)) ∧
    (∀ K v, (K, v) ∈ cfg → pyStartswith K pfx = true →
      dictGet (extractOptions cfg pfx) (pyDropChars K (pyLen pfx)) = some v) ∧
    (∀ k, (∀ K v, (K, v) ∈ cfg → ¬(pyStartswith K pfx = true ∧ pyDropChars K (pyLen pfx) = k)) →
      dictGet (extractOptions cfg pfx) k = none) := by
  refine ⟨fun k => ?_, fun K v hKv hpre => ?_, fun k hnone => ?_⟩
  · exact dictGet_update_fold kwargs (extractOptions cfg pfx) k hkw
  · exact dictGet_fold_mem (matchingPairs cfg pfx) [] (pyDropChars K (pyLen pfx)) v hmp
      (List.mem_map.mpr ⟨(K, v), List.mem_filter.mpr ⟨hKv, by simpa using hpre⟩, rfl⟩)
  · have hkeys : ∀ q, q ∈ matchingPairs cfg pfx → ¬(q.1 = k) := by
      intro q hq
      obtain ⟨p, hpmem, rfl⟩ := List.mem_map.mp hq
      have hpf := List.mem_filter.mp hpmem
      intro hcon
      exact hnone p.1 p.2 (by simpa using hpf.1) ⟨by simpa using hpf.2, hcon⟩
    exact dictGet_fold_skip (matchingPairs cfg pfx) [] k hkeys

/-- C9 witness: the spec's scenario 4 -- a configuration mapping
`adwords.email` to `a@b.com` and `other.key` to `x`, with key prefix
`adwords.`, yields an option mapping sending `email` to `a@b.com`. -/
theorem c9_witness :
    dictGet (client_from_config c9Cfg "adwords." []) "email" = some "a@b.com" := by
  have h := c9_client_from_config_options c9Cfg [] "adwords." (by decide) (by decide)
  rw [h.1 "email"]
  decide
